import Mathlib

set_option maxRecDepth 4000

/-!
Shallow embedding of the streaming ingestion pipeline in
src/load_to_database.py, together with theorems settling the frozen
claims about it.  Strings are modelled as lists of characters, JSON-like
Python values as the inductive type JVal, and machine behaviour such as
Python truthiness is made explicit.  The json.loads decoder from the
standard library and the possibility of a store rejecting a batch write
are modelled as parameters of the orchestration loop.
-/

/-- Model of a Python value as it appears after json.loads: null, booleans,
numbers (restricted to integers, which is all the pipeline inspects),
strings, arrays and objects.  Objects are association lists in insertion
order, mirroring Python dict iteration order. -/
inductive JVal where
  | null
  | bool (b : Bool)
  | num (n : Int)
  | str (s : List Char)
  | arr (elems : List JVal)
  | obj (fields : List (String × JVal))

/-- A decoded message record: the dict produced by json.loads. -/
abbrev Msg := List (String × JVal)

/-- Python truthiness: None, False, 0, empty string, empty list and empty
dict are falsy, everything else truthy. -/
def truthy : JVal → Bool
  | .null => false
  | .bool b => b
  | .num n => n != 0
  | .str s => !s.isEmpty
  | .arr es => !es.isEmpty
  | .obj fs => !fs.isEmpty

/-- Dict lookup: `k in d` together with `d[k]`.  Python dict keys are
unique, so first match is the binding. -/
def lookupField (m : List (String × JVal)) (k : String) : Option JVal :=
  match m with
  | [] => none
  | p :: rest => if p.1 = k then some p.2 else lookupField rest k

/-- Python `d.get(k, default)`. -/
def getD (m : Msg) (k : String) (d : JVal) : JVal :=
  match lookupField m k with
  | some v => v
  | none => d

/-- Python `a or b` (value-returning): the first operand if it is truthy,
otherwise the second. -/
def pyOr (a b : JVal) : JVal := if truthy a then a else b

/-- Comma-space separator used by Python container repr. -/
def joinComma : List (List Char) → List Char
  | [] => []
  | [x] => x
  | x :: y :: rest => x ++ ',' :: ' ' :: joinComma (y :: rest)

/-- Model of Python repr for values, used for str() on containers. -/
def pyRepr : JVal → List Char
  | .null => "None".toList
  | .bool true => "True".toList
  | .bool false => "False".toList
  | .num n => (toString n).toList
  | .str s => '\x27' :: s ++ ['\x27']
  | .obj fs =>
      '\x7b' :: joinComma (fs.attach.map (fun p =>
        '\x27' :: (p.1.1.toList ++ '\x27' :: ':' :: ' ' :: pyRepr p.1.2))) ++ ['\x7d']
  | .arr es => '[' :: joinComma (es.attach.map (fun p => pyRepr p.1)) ++ [']']
termination_by v => sizeOf v
decreasing_by
  all_goals
    first
    | (have h1 := List.sizeOf_lt_of_mem p.2
       have h2 : sizeOf p.1.2 < sizeOf p.1 := by
         obtain ⟨a, b⟩ := p.1
         simp only [Prod.mk.sizeOf_spec]
         omega
       simp only [JVal.obj.sizeOf_spec]
       omega)
    | (have h1 := List.sizeOf_lt_of_mem p.2
       simp only [JVal.arr.sizeOf_spec]
       omega)

/-- Model of Python str(): identity on strings, repr on everything else. -/
def pyStr : JVal → List Char
  | .str s => s
  | v => pyRepr v

/-- Whether `pat` is a prefix of `hay` (over characters). -/
def isPrefixList : List Char → List Char → Bool
  | [], _ => true
  | _ :: _, [] => false
  | a :: as, b :: bs => a == b && isPrefixList as bs

/-- Python substring test `pat in hay`. -/
def containsSub (hay pat : List Char) : Bool :=
  isPrefixList pat hay ||
    match hay with
    | [] => false
    | _ :: t => containsSub t pat

/-- Python str.lower(), modelled for the ASCII range (the Arabic keyword
characters have no case and are unchanged). -/
def lowerList (s : List Char) : List Char := s.map Char.toLower

/-- Python `len(s.split())`: number of maximal runs of non-whitespace. -/
def countWordsAux : List Char → Bool → Nat
  | [], _ => 0
  | c :: rest, inWord =>
      if c.isWhitespace then countWordsAux rest false
      else (if inWord then 0 else 1) + countWordsAux rest true

def countWords (s : List Char) : Nat := countWordsAux s false

/-- extract_id: extract a MongoDB ObjectId from obj under key _id.
A dict value carrying an inner $oid tag yields that inner value verbatim;
anything else is passed through str(). -/
def extract_id (m : Msg) : Option JVal :=
  if m.isEmpty then none
  else
    match lookupField m "_id" with
    | none => none
    | some v =>
        match v with
        | .obj d =>
            match lookupField d "$oid" with
            | some ov => some ov
            | none => some (.str (pyStr (.obj d)))
        | _ => some (.str (pyStr v))

/-- Inner loop of extract_foreign_key over the candidate key list: the
first key present in the dict decides the outcome (even when its value is
falsy, in which case the result is None). -/
def efkLoop (m : Msg) : List String → Option JVal
  | [] => none
  | k :: rest =>
      match lookupField m k with
      | some v =>
          match v with
          | .obj d =>
              match lookupField d "$oid" with
              | some ov => some ov
              | none => if truthy v then some (.str (pyStr v)) else none
          | _ => if truthy v then some (.str (pyStr v)) else none
      | none => efkLoop m rest

/-- extract_foreign_key from src/load_to_database.py. -/
def extract_foreign_key (m : Msg) (keys : List String) : Option JVal :=
  if m.isEmpty then none else efkLoop m keys

/-- Civil date (year, month, day) from a count of days since 1970-01-01,
the standard era-based conversion. -/
def civilFromDays (z0 : Int) : Int × Nat × Nat :=
  let z := z0 + 719468
  let era := (if 0 ≤ z then z else z - 146096) / 146097
  let doe := (z - era * 146097).toNat
  let yoe := (doe - doe / 1460 + doe / 36524 - doe / 146096) / 365
  let y := (yoe : Int) + era * 400
  let doy := doe - (365 * yoe + yoe / 4 - yoe / 100)
  let mp := (5 * doy + 2) / 153
  let d := doy - (153 * mp + 2) / 5 + 1
  let m := if mp < 10 then mp + 3 else mp - 9
  ((if m ≤ 2 then y + 1 else y), m, d)

/-- Days since 1970-01-01 of a civil date, inverse of civilFromDays. -/
def daysFromCivil (y0 : Int) (m d : Nat) : Int :=
  let y := if m ≤ 2 then y0 - 1 else y0
  let era := (if 0 ≤ y then y else y - 399) / 400
  let yoe := (y - era * 400).toNat
  let mp := if 2 < m then m - 3 else m + 9
  let doy := (153 * mp + 2) / 5 + d - 1
  let doe := yoe * 365 + yoe / 4 - yoe / 100 + doy
  era * 146097 + (doe : Int) - 719468

/-- Reads exactly n decimal digits, returning the value and the rest. -/
def readDigits : Nat → List Char → Nat → Option (Nat × List Char)
  | 0, s, acc => some (acc, s)
  | k + 1, s, acc =>
      match s with
      | c :: rest =>
          if c.isDigit then readDigits k rest (acc * 10 + (c.toNat - 48)) else none
      | [] => none

/-- Expects a fixed character at the head of the input. -/
def expectChar (c : Char) : List Char → Option (List Char)
  | x :: rest => if x = c then some rest else none
  | [] => none

/-- Number of days in a month, honouring leap years. -/
def daysInMonth (y : Int) (m : Nat) : Nat :=
  if m = 2 then
    if y % 4 = 0 ∧ (y % 100 ≠ 0 ∨ y % 400 = 0) then 29 else 28
  else if m = 4 ∨ m = 6 ∨ m = 9 ∨ m = 11 then 30
  else 31

/-- Parses an optional fractional-seconds suffix, yielding milliseconds
(sub-millisecond digits are truncated in this model). -/
def readFraction : List Char → Option (Int × List Char)
  | '.' :: rest =>
      let digits := rest.takeWhile Char.isDigit
      if digits.isEmpty ∨ 6 < digits.length then none
      else
        let padded := (digits ++ "000".toList).take 3
        let v := padded.foldl (fun a c => a * 10 + ((c.toNat : Int) - 48)) 0
        some (v, rest.dropWhile Char.isDigit)
  | s => some (0, s)

/-- Parses an optional UTC offset suffix sign HH:MM, in seconds. -/
def readOffset : List Char → Option (Int × List Char)
  | [] => some (0, [])
  | c :: rest =>
      if c = '+' ∨ c = '-' then do
        let (oh, s1) ← readDigits 2 rest 0
        let s2 ← expectChar ':' s1
        let (om, s3) ← readDigits 2 s2 0
        if 23 < oh ∨ 59 < om then none
        else
          let secs : Int := (oh : Int) * 3600 + (om : Int) * 60
          some ((if c = '-' then -secs else secs), s3)
      else none

/-- Model of datetime.fromisoformat on the forms the pipeline can meet:
YYYY-MM-DD with an optional T- or space-separated HH:MM[:SS[.ffffff]] and
an optional numeric offset (a trailing Z has already been rewritten to
+00:00 by the caller).  The result is a Unix timestamp in milliseconds;
an aware offset is folded into the instant. -/
def fromIso (s : List Char) : Option Int := do
  let (y, s1) ← readDigits 4 s 0
  let s2 ← expectChar '-' s1
  let (mo, s3) ← readDigits 2 s2 0
  let s4 ← expectChar '-' s3
  let (d, s5) ← readDigits 2 s4 0
  if mo < 1 ∨ 12 < mo ∨ d < 1 ∨ daysInMonth (y : Int) mo < d then none
  else
    let days := daysFromCivil (y : Int) mo d
    match s5 with
    | [] => some (days * 86400000)
    | sep :: s6 =>
        if sep = 'T' ∨ sep = ' ' then do
          let (h, s7) ← readDigits 2 s6 0
          let s8 ← expectChar ':' s7
          let (mi, s9) ← readDigits 2 s8 0
          if 23 < h ∨ 59 < mi then none
          else do
            let (sec, s10) ←
              match s9 with
              | ':' :: s10 => readDigits 2 s10 0
              | _ => some (0, s9)
            if 59 < sec then none
            else do
              let (frac, s11) ← readFraction s10
              let (off, s12) ← readOffset s11
              if s12.isEmpty then
                some ((days * 86400 + (h : Int) * 3600 + (mi : Int) * 60 + (sec : Int) - off) * 1000 + frac)
              else none
        else none

/-- Python str.replace applied to rewrite every Z into +00:00. -/
def replaceZ (s : List Char) : List Char :=
  s.flatMap (fun c => if c = 'Z' then "+00:00".toList else [c])

/-- datetime.fromtimestamp raises for instants outside year 1..9999; the
numeric branches of parse_timestamp therefore yield None there (the
timezone is modelled as UTC). -/
def tsInRange (ms : Int) : Bool :=
  let y := (civilFromDays ((ms / 1000) / 86400)).1
  1 ≤ y && y ≤ 9999

def mkTs (ms : Int) : Option Int := if tsInRange ms then some ms else none

/-- parse_timestamp from src/load_to_database.py, producing the decoded
instant as Unix milliseconds.  A falsy input returns None; a dict is
consulted for a $date tag holding an ISO string or a numeric epoch; a bare
number or ISO string is accepted directly.  A numeric epoch strictly above
1e12 is taken as milliseconds, otherwise as seconds.  Any decode failure
yields None. -/
def parse_timestamp (ts : JVal) : Option Int :=
  if ¬truthy ts then none
  else
    match ts with
    | .obj d =>
        match lookupField d "$date" with
        | some (.str s) => fromIso (replaceZ s)
        | some (.num n) => if 10 ^ 12 < n then mkTs n else mkTs (n * 1000)
        | _ => none
    | .num n => if 10 ^ 12 < n then mkTs n else mkTs (n * 1000)
    | .str s => fromIso (replaceZ s)
    | _ => none

/-- Day index (days since the epoch) of a decoded instant, shifted by a
fixed timezone offset in seconds (datetime.fromtimestamp uses the local
timezone; the offset is a parameter so statements can hold for any fixed
zone). -/
def epochDay (tz ms : Int) : Int := Int.fdiv (Int.fdiv ms 1000 + tz) 86400

/-- Derived calendar date of a decoded instant. -/
def derivedDate (tz ms : Int) : Int × Nat × Nat := civilFromDays (epochDay tz ms)

/-- Derived hour (0-23) of a decoded instant. -/
def derivedHour (tz ms : Int) : Int := Int.fmod (Int.fdiv ms 1000 + tz) 86400 / 3600

/-- Weekday name, strftime %A (day 0 of the epoch was a Thursday). -/
def weekdayName (tz ms : Int) : String :=
  (["Monday", "Tuesday", "Wednesday", "Thursday", "Friday", "Saturday", "Sunday"].getD
    (Int.fmod (epochDay tz ms + 3) 7).toNat "Monday")

/-- Derived (year, month), strftime %Y-%m. -/
def derivedMonth (tz ms : Int) : Int × Nat := ((derivedDate tz ms).1, (derivedDate tz ms).2.1)

/-- Derived (year, week number), strftime %Y-W%W: Monday-first weeks, days
before the first Monday of the year falling in week 0. -/
def derivedWeek (tz ms : Int) : Int × Nat :=
  let day := epochDay tz ms
  let y := (civilFromDays day).1
  let yday0 := (day - daysFromCivil y 1 1).toNat
  let wdayMon := (Int.fmod (day + 3) 7).toNat
  (y, (yday0 + 7 - wdayMon) / 7)

/-- First-match-wins evaluation of an ordered (label, keyword list) rule
table over a lowercased body, with a fallback label. -/
def firstMatching (tables : List (String × List (List Char))) (bl : List Char) (fallback : String) : String :=
  match tables with
  | [] => fallback
  | (label, kws) :: rest =>
      if kws.any (fun w => containsSub bl w) then label
      else firstMatching rest bl fallback

/-- The ordered category rule table of categorize_message. -/
def categoriesTable : List (String × List (List Char)) :=
  [("Order/Purchase", ["order", "طلب", "اطلب", "عايز", "محتاج", "ابعتلي", "اوردر", "شراء", "اشتري"].map String.toList),
   ("Inquiry/Question", ["?", "؟", "سؤال", "استفسار", "ايه", "how", "what", "فين", "امتى"].map String.toList),
   ("Price Inquiry", ["سعر", "كام", "بكام", "price", "cost", "تكلفة"].map String.toList),
   ("Availability", ["متوفر", "موجود", "available", "عندكم", "فيه", "stock"].map String.toList),
   ("Alternative Request", ["بديل", "alternative", "غيره", "تاني", "similar"].map String.toList),
   ("Complaint", ["شكوى", "مشكلة", "problem", "issue", "complaint", "زعلان", "غلط"].map String.toList),
   ("Delivery", ["توصيل", "delivery", "شحن", "وصل", "هيوصل", "العنوان", "address"].map String.toList),
   ("Payment", ["دفع", "payment", "فلوس", "money", "فيزا", "كاش", "تحويل"].map String.toList),
   ("Medical Advice", ["دواء", "علاج", "medicine", "treatment", "ينفع", "جرعة", "dose"].map String.toList),
   ("Thanks/Feedback", ["شكرا", "thanks", "تمام", "ممتاز", "great", "excellent"].map String.toList),
   ("Greeting", ["السلام", "صباح", "مساء", "hello", "hi", "اهلا", "ازيك"].map String.toList)]

/-- categorize_message from src/load_to_database.py. -/
def categorize_message (body : JVal) : String :=
  if ¬truthy body then "Other"
  else firstMatching categoriesTable (lowerList (pyStr body)) "Other"

/-- The fixed positive keyword list of detect_sentiment. -/
def positive_words : List (List Char) :=
  ["شكرا", "thanks", "great", "excellent", "ممتاز", "رائع", "جميل",
   "تمام", "كويس", "good", "nice", "amazing", "love", "best", "perfect",
   "happy", "سعيد", "مبسوط", "تسلم", "احسن", "برافو"].map String.toList

/-- The fixed negative keyword list of detect_sentiment. -/
def negative_words : List (List Char) :=
  ["سيء", "bad", "terrible", "awful", "worst", "hate", "مشكلة",
   "زعلان", "غضبان", "مش كويس", "وحش", "problem", "issue",
   "شكوى", "disappointed", "فاشل", "متأخر", "late", "wrong"].map String.toList

/-- Number of keywords from the list occurring in the lowercased body
(each keyword contributes at most one hit, matching
sum of 1 for w in words if w in body_lower). -/
def countHits (ws : List (List Char)) (bl : List Char) : Nat :=
  (ws.filter (fun w => containsSub bl w)).length

/-- detect_sentiment from src/load_to_database.py. -/
def detect_sentiment (body : JVal) : String :=
  if ¬truthy body then "Neutral"
  else
    let bl := lowerList (pyStr body)
    let pc := countHits positive_words bl
    let nc := countHits negative_words bl
    if nc < pc then "Positive"
    else if pc < nc then "Negative"
    else "Neutral"

/-- The two ordered urgency keyword lists of detect_urgency. -/
def urgencyTable : List (String × List (List Char)) :=
  [("Urgent", ["urgent", "ضروري", "مستعجل", "بسرعة", "حالا", "emergency", "طوارئ", "فورا"].map String.toList),
   ("High", ["important", "مهم", "please", "من فضلك", "محتاج", "need"].map String.toList)]

/-- detect_urgency from src/load_to_database.py. -/
def detect_urgency (body : JVal) : String :=
  if ¬truthy body then "Normal"
  else firstMatching urgencyTable (lowerList (pyStr body)) "Normal"

/-- The ordered intent rule table of detect_intent. -/
def intentsTable : List (String × List (List Char)) :=
  [("Buy", ["اشتري", "طلب", "عايز", "order", "buy", "purchase"].map String.toList),
   ("Ask Price", ["سعر", "كام", "بكام", "price", "cost"].map String.toList),
   ("Check Availability", ["متوفر", "موجود", "available", "عندكم"].map String.toList),
   ("Get Alternative", ["بديل", "alternative", "غيره"].map String.toList),
   ("Track Order", ["فين", "وصل", "الاوردر", "tracking", "status"].map String.toList),
   ("Get Medical Advice", ["ينفع", "اخد", "جرعة", "علاج", "دواء"].map String.toList),
   ("Report Problem", ["مشكلة", "شكوى", "problem", "issue"].map String.toList),
   ("Give Feedback", ["شكرا", "تمام", "ممتاز", "thanks", "feedback"].map String.toList)]

/-- detect_intent from src/load_to_database.py. -/
def detect_intent (body : JVal) : String :=
  if ¬truthy body then "General"
  else firstMatching intentsTable (lowerList (pyStr body)) "General"

/-- The ordered flat top-level fields probed by extract_customer_phone. -/
def flatFields : List String :=
  ["remoteJid", "from", "to", "sender", "chatId", "participant", "jid", "phone", "number", "contact"]

/-- The ordered fields probed inside the nested key sub-object. -/
def keyFields : List String := ["remoteJid", "participant", "from", "to"]

/-- The nested parent objects probed when nothing else matched. -/
def parentList : List String := ["message", "chat", "contact", "sender"]

/-- The fields probed inside each nested parent object. -/
def parentFields : List String := ["jid", "phone", "id", "number"]

/-- First field of the list that is present with a truthy value
(the `if field in msg and msg[field]` loop shape). -/
def firstTruthy (m : Msg) : List String → Option JVal
  | [] => none
  | f :: rest =>
      match lookupField m f with
      | some v => if truthy v then some v else firstTruthy m rest
      | none => firstTruthy m rest

/-- First field of the list that is merely present, regardless of its
value (the `if field in msg[parent]` loop shape used for nested
parents, which has no truthiness check). -/
def firstPresent (m : Msg) : List String → Option JVal
  | [] => none
  | f :: rest =>
      match lookupField m f with
      | some v => some v
      | none => firstPresent m rest

/-- The key-sub-object stage of extract_customer_phone. -/
def keyStage (msg : Msg) : Option JVal :=
  match lookupField msg "key" with
  | some (.obj k) => firstTruthy k keyFields
  | _ => none

/-- What one nested parent contributes: its first present field value,
when the parent is present and is a dict. -/
def parentProbe (msg : Msg) (p : String) : Option JVal :=
  match lookupField msg p with
  | some (.obj d) => firstPresent d parentFields
  | _ => none

/-- The nested-parents stage of extract_customer_phone: the source loops
over all four parents without breaking, so each successful probe
overwrites the phone variable. -/
def parentsScan (msg : Msg) : Option JVal :=
  parentList.foldl
    (fun acc p =>
      match parentProbe msg p with
      | some v => some v
      | none => acc)
    none

/-- The raw (pre-cleaning) phone value chosen by extract_customer_phone:
flat fields, then the key sub-object (guarded by `if not phone`), then
the nested parents (guarded by `if not phone`). -/
def phoneCandidate (msg : Msg) : Option JVal :=
  match firstTruthy msg flatFields with
  | some v => some v
  | none =>
      match keyStage msg with
      | some v => some v
      | none => parentsScan msg

mutual

/-- Model of re.sub of an at-sign followed by dot-star with the empty
string: from each at-sign, everything up to (not including) the next
newline is removed; scanning resumes at that newline. -/
def stripAtSuffix : List Char → List Char
  | [] => []
  | c :: rest => if c = '@' then stripSkip rest else c :: stripAtSuffix rest

/-- Skips to the next newline (kept) after a removed at-suffix. -/
def stripSkip : List Char → List Char
  | [] => []
  | c :: rest => if c = '\n' then '\n' :: stripAtSuffix rest else stripSkip rest

end

/-- Characters kept by re.sub removing every non-digit non-plus. -/
def keepChar (c : Char) : Bool := c.isDigit || c == '+'

/-- The cleaning step of extract_customer_phone on a string value: remove
at-suffixes, keep only digits and plus signs, and require at least ten
characters (otherwise None). -/
def cleanResult (raw : List Char) : Option (List Char) :=
  let t := (stripAtSuffix raw).filter keepChar
  if 10 ≤ t.length then some t else none

/-- extract_customer_phone from src/load_to_database.py: pick the raw
candidate value, then clean it when it is a truthy string. -/
def extract_customer_phone (msg : Msg) : Option (List Char) :=
  match phoneCandidate msg with
  | some (.str s) => if s.isEmpty then none else cleanResult s
  | _ => none

/-- The mutable state of the character-loop scanner inside
stream_load_messages: the candidate buffer, the brace depth, and the
in-string and escape-next flags. -/
structure ScanState where
  buffer : List Char
  depth : Nat
  inString : Bool
  escapeNext : Bool

/-- Outcome of one loop iteration on one character: stop (the closing
bracket of the array at depth zero), continue with a new state, or emit a
completed candidate buffer and continue. -/
inductive StepRes where
  | stop
  | cont (st : ScanState)
  | emit (cand : List Char) (st : ScanState)

/-- One iteration of the scanning loop of stream_load_messages, exactly
mirroring the branch structure of the source: the depth-zero closing
bracket breaks; a depth-zero opening brace resets the buffer and flags
and enters depth 1; at positive depth the character is buffered and then
the escape, backslash, quote and brace rules apply; at depth zero every
other character is discarded. -/
def scanStep (st : ScanState) (c : Char) : StepRes :=
  if c = ']' ∧ st.depth = 0 then .stop
  else if c = '\x7b' ∧ st.depth = 0 then .cont ⟨['\x7b'], 1, false, false⟩
  else if 0 < st.depth then
    let buf := st.buffer ++ [c]
    if st.escapeNext then .cont ⟨buf, st.depth, st.inString, false⟩
    else if c = '\\' ∧ st.inString then .cont ⟨buf, st.depth, st.inString, true⟩
    else if c = '"' then .cont ⟨buf, st.depth, !st.inString, st.escapeNext⟩
    else if ¬st.inString ∧ c = '\x7b' then .cont ⟨buf, st.depth + 1, st.inString, st.escapeNext⟩
    else if ¬st.inString ∧ c = '\x7d' then
      if st.depth = 1 then .emit buf ⟨[], 0, st.inString, st.escapeNext⟩
      else .cont ⟨buf, st.depth - 1, st.inString, st.escapeNext⟩
    else .cont ⟨buf, st.depth, st.inString, st.escapeNext⟩
  else .cont st

/-- The scanning loop run to the end of input, collecting the emitted
candidate buffers in order. -/
def scanLoop : List Char → ScanState → List (List Char)
  | [], _ => []
  | c :: rest, st =>
      match scanStep st c with
      | .stop => []
      | .cont st' => scanLoop rest st'
      | .emit cand st' => cand :: scanLoop rest st'

/-- The initial read-until-opening-bracket phase of stream_load_messages;
None models the could-not-find-JSON-array early return. -/
def findArray : List Char → Option (List Char)
  | [] => none
  | c :: rest => if c = '[' then some rest else findArray rest

/-- The candidate sequence produced by the scanner from a raw character
stream. -/
def scanner (input : List Char) : List (List Char) :=
  match findArray input with
  | none => []
  | some rest => scanLoop rest ⟨[], 0, false, false⟩

/-- One persisted messages row, mirroring the 28-column tuple built in
stream_load_messages.  Temporal fields are kept structured: the decoded
instant in Unix milliseconds and the derived date, hour, weekday, month
and week values (the source formats these with strftime; the formatting
itself is presentation and the timezone is modelled as UTC). -/
structure Row where
  message_id : Option JVal
  direction : String
  mtype : JVal
  status : JVal
  body : JVal
  body_length : Nat
  word_count : Nat
  is_broadcast : Nat
  is_deleted : Nat
  is_group : Nat
  has_question : Nat
  has_emoji : Nat
  has_link : Nat
  customer_phone : Option (List Char)
  instance_id : Option JVal
  instance_name : JVal
  company_id : Option JVal
  company_name : JVal
  category : String
  sentiment : String
  urgency : String
  intent : String
  timestampMs : Option Int
  date : Option (Int × Nat × Nat)
  hour : Option Int
  day_of_week : Option String
  month : Option (Int × Nat)
  week : Option (Int × Nat)

/-- Reference-map lookup (instances_dict / companies_dict): the maps are
keyed by the strings produced by extract_id, so only a string key can
match. -/
def dictGet (d : List (List Char × Msg)) (k : JVal) : Option Msg :=
  match k with
  | .str s =>
      match d.find? (fun p => p.1 == s) with
      | some p => some p.2
      | none => none
  | _ => none

/-- The per-record enrichment of stream_load_messages: everything between
json.loads succeeding and the row tuple being appended to the batch. -/
def makeRow (instD compD : List (List Char × Msg)) (msg : Msg) : Row :=
  let instance_id := extract_foreign_key msg ["instance", "instanceId", "instance_id"]
  let instanceObj :=
    match instance_id with
    | some iv => if truthy iv then dictGet instD iv else none
    | none => none
  let company_id :=
    match instanceObj with
    | some inst => if inst.isEmpty then none else extract_foreign_key inst ["company", "companyId", "company_id"]
    | none => none
  let companyObj :=
    match instanceObj with
    | some inst =>
        if inst.isEmpty then none
        else
          match company_id with
          | some cv => dictGet compD cv
          | none => none
    | none => none
  let ts := parse_timestamp (pyOr (getD msg "createdAt" .null) (getD msg "timestamp" .null))
  let body := pyOr (getD msg "body" (.str [])) (.str [])
  let broadcast_id := extract_foreign_key msg ["broadCastId", "broadcast_id", "broadcast"]
  { message_id := extract_id msg
    direction := if truthy (getD msg "fromMe" (.bool false)) then "Outgoing" else "Incoming"
    mtype := getD msg "type" (.str ("unknown".toList))
    status := getD msg "status" (.str ("unknown".toList))
    body := body
    body_length := if truthy body then (pyStr body).length else 0
    word_count := if truthy body then countWords (pyStr body) else 0
    is_broadcast :=
      if truthy (getD msg "isBroadCast" (.bool false))
          || (match broadcast_id with | some v => truthy v | none => false) then 1 else 0
    is_deleted := if truthy (getD msg "isDeleted" (.bool false)) then 1 else 0
    is_group := if truthy (getD msg "isGroup" (.bool false)) then 1 else 0
    has_question :=
      if containsSub (pyStr body) ['?'] || containsSub (pyStr body) ['؟'] then 1 else 0
    has_emoji :=
      if (pyStr body).any (fun c => 0x1F600 ≤ c.toNat && c.toNat ≤ 0x1F64F) then 1 else 0
    has_link :=
      if containsSub (pyStr body) ("http://".toList)
          || containsSub (pyStr body) ("https://".toList) then 1 else 0
    customer_phone := extract_customer_phone msg
    instance_id := instance_id
    instance_name :=
      match instanceObj with
      | some inst =>
          if inst.isEmpty then .str ("Unknown".toList)
          else getD inst "name" (.str ("Unknown".toList))
      | none => .str ("Unknown".toList)
    company_id := company_id
    company_name :=
      match companyObj with
      | some comp =>
          if comp.isEmpty then .str ("Unknown".toList)
          else getD comp "name" (.str ("Unknown".toList))
      | none => .str ("Unknown".toList)
    category := categorize_message body
    sentiment := detect_sentiment body
    urgency := detect_urgency body
    intent := detect_intent body
    timestampMs := ts
    date := ts.map (derivedDate 0)
    hour := ts.map (derivedHour 0)
    day_of_week := ts.map (weekdayName 0)
    month := ts.map (derivedMonth 0)
    week := ts.map (derivedWeek 0) }

/-- The batching state of stream_load_messages: the current batch buffer,
the batches committed so far (each an ordered list of rows), and the
total_messages counter. -/
structure BatchSt where
  batch : List Row
  commits : List (List Row)
  total : Nat

/-- Handling of one completed candidate buffer: json.loads is the decode
parameter (None models json.JSONDecodeError); failures are skipped, a
decoded record is enriched and appended, and a full batch triggers an
executemany plus commit.  The commitFail parameter models the store
rejecting that batch write: the raised exception is swallowed by the
same `except Exception: pass` that guards decoding, so the batch buffer
is retained (not cleared) and the loop simply continues. -/
def handleCand (decode : List Char → Option Msg) (instD compD : List (List Char × Msg))
    (bs : Nat) (commitFail : List Row → Bool) (st : BatchSt) (cand : List Char) : BatchSt :=
  match decode cand with
  | none => st
  | some msg =>
      let row := makeRow instD compD msg
      let batch := st.batch ++ [row]
      let total := st.total + 1
      if bs ≤ batch.length then
        if commitFail batch then ⟨batch, st.commits, total⟩
        else ⟨[], st.commits ++ [batch], total⟩
      else ⟨batch, st.commits, total⟩

/-- The final flush after the loop: a remaining partial batch is inserted
and committed; a failure there propagates to the outer except handler
(the Boolean marks that the function printed the error and returned 0). -/
def finishRun (commitFail : List Row → Bool) (st : BatchSt) : List (List Row) × Nat × Bool :=
  if st.batch.isEmpty then (st.commits, st.total, false)
  else if commitFail st.batch then (st.commits, st.total, true)
  else (st.commits ++ [st.batch], st.total, false)

/-- The fused scan-decode-enrich-batch loop of stream_load_messages, with
scanning and batching interleaved exactly as in the source. -/
def loadLoop (decode : List Char → Option Msg) (instD compD : List (List Char × Msg))
    (bs : Nat) (commitFail : List Row → Bool) :
    List Char → ScanState → BatchSt → List (List Row) × Nat × Bool
  | [], _, bst => finishRun commitFail bst
  | c :: rest, st, bst =>
      match scanStep st c with
      | .stop => finishRun commitFail bst
      | .cont st' => loadLoop decode instD compD bs commitFail rest st' bst
      | .emit cand st' =>
          loadLoop decode instD compD bs commitFail rest st'
            (handleCand decode instD compD bs commitFail bst cand)

/-- The same run expressed over an already-scanned candidate list. -/
def runCands (decode : List Char → Option Msg) (instD compD : List (List Char × Msg))
    (bs : Nat) (commitFail : List Row → Bool)
    (cands : List (List Char)) (bst : BatchSt) : List (List Row) × Nat × Bool :=
  finishRun commitFail (cands.foldl (handleCand decode instD compD bs commitFail) bst)

/-- stream_load_messages from src/load_to_database.py: seek the array
opening bracket (failure returns with nothing loaded), then run the
fused loop from the idle state. -/
def stream_load_messages (decode : List Char → Option Msg) (instD compD : List (List Char × Msg))
    (bs : Nat) (commitFail : List Row → Bool) (input : List Char) : List (List Row) × Nat × Bool :=
  match findArray input with
  | none => ([], 0, false)
  | some rest => loadLoop decode instD compD bs commitFail rest ⟨[], 0, false, false⟩ ⟨[], [], 0⟩

/-- Well-formed content of one string literal as the scanner sees it: a
sequence of plain characters (neither a quote nor a backslash) and
escape pairs (a backslash followed by an arbitrary character). -/
inductive StrChars : List Char → Prop where
  | nil : StrChars []
  | plain (c : Char) (s : List Char) : c ≠ '"' → c ≠ '\\' → StrChars s → StrChars (c :: s)
  | esc (c : Char) (s : List Char) : StrChars s → StrChars ('\\' :: c :: s)

/-- Well-formed interior of an object as the scanner sees it: raw
characters (no brace, no quote), complete string literals (whose content
may freely contain braces and escaped quotes), and complete nested
objects, concatenated. -/
inductive BalancedInner : List Char → Prop where
  | nil : BalancedInner []
  | raw (c : Char) (s : List Char) :
      c ≠ '\x7b' → c ≠ '\x7d' → c ≠ '"' → BalancedInner s → BalancedInner (c :: s)
  | str (s cs : List Char) : StrChars s → BalancedInner cs → BalancedInner ('"' :: s ++ '"' :: cs)
  | obj (inner cs : List Char) :
      BalancedInner inner → BalancedInner cs → BalancedInner ('\x7b' :: inner ++ '\x7d' :: cs)

/-- The serialized text of one top-level array element with interior
`inner`. -/
def objText (inner : List Char) : List Char := '\x7b' :: inner ++ ['\x7d']

/-- A full input stream for the pipeline: leading junk before the array
bracket, elements each preceded by separator junk, trailing separator
junk, the closing bracket, and an ignored tail. -/
def arrayInput (pre : List Char) (elems : List (List Char × List Char))
    (post tail : List Char) : List Char :=
  pre ++ '[' :: ((elems.flatMap fun p => p.1 ++ objText p.2) ++ (post ++ ']' :: tail))

/-- Left-biased choice on optional values. -/
def orOpt (a b : Option JVal) : Option JVal :=
  match a with
  | some v => some v
  | none => b

/-- First element of the list on which the probe succeeds. -/
def firstSome {α β : Type} (f : α → Option β) : List α → Option β
  | [] => none
  | x :: xs =>
      match f x with
      | some v => some v
      | none => firstSome f xs

/-- Modelled from the spec: the nested-parents stage as the spec words it,
namely the parents are scanned in order and the first location yielding a
non-empty (truthy) value wins, short-circuiting.  This is the definition
the claim describes, to be compared with the implemented parentsScan. -/
def specParentsScan (msg : Msg) : Option JVal :=
  firstSome
    (fun p =>
      match lookupField msg p with
      | some (.obj d) => firstTruthy d parentFields
      | _ => none)
    parentList

/-- Modelled from the spec: customer-phone extraction as the claim words
it, with every stage (flat fields, key sub-object, nested parents)
first-non-empty-wins and no later location overriding. -/
def specPhoneLookup (msg : Msg) : Option (List Char) :=
  match orOpt (firstTruthy msg flatFields) (orOpt (keyStage msg) (specParentsScan msg)) with
  | some (.str s) => if s.isEmpty then none else cleanResult s
  | _ => none

/-- Modelled from the spec: the claimed shape of a normalized phone,
digits optionally prefixed with a single leading plus sign. -/
def specPhoneShape (s : List Char) : Bool :=
  match s with
  | '+' :: t => t.all Char.isDigit
  | _ => s.all Char.isDigit

/-- The nested-parents stage as the code actually behaves: since the
parent loop never breaks, the last parent carrying any probed field wins,
i.e. the first hit over the reversed parent list. -/
def lastParentHit (msg : Msg) : Option JVal :=
  firstSome (parentProbe msg) parentList.reverse

/-- The implemented lookup order of extract_customer_phone, written
declaratively: flat fields first-truthy-wins, then the key sub-object
first-truthy-wins, then the LAST nested parent with any probed field. -/
def amendedPhoneLookup (msg : Msg) : Option (List Char) :=
  match orOpt (firstTruthy msg flatFields) (orOpt (keyStage msg) (lastParentHit msg)) with
  | some (.str s) => if s.isEmpty then none else cleanResult s
  | _ => none

/-- A tiny concrete decoder standing in for json.loads in witnesses: it
recognises two fixed candidate texts. -/
def decodeW (s : List Char) : Option Msg :=
  if s = ("\x7b\x7d".toList) then some []
  else if s = ("\x7b\"a\x7d\"\x7d".toList) then some [("body", .str ("hi".toList))]
  else none

/-- A concrete decoder for the batching witnesses: every candidate decodes
to a dict recording its own text under _id. -/
def decodeAll (s : List Char) : Option Msg := some [("_id", .str s)]


theorem scanLoop_cons (c : Char) (rest : List Char) (st : ScanState) :
    scanLoop (c :: rest) st =
      match scanStep st c with
      | .stop => []
      | .cont st' => scanLoop rest st'
      | .emit cand st' => cand :: scanLoop rest st' := rfl

theorem scanLoop_cont {st : ScanState} {c : Char} {st' : ScanState}
    (h : scanStep st c = .cont st') (rest : List Char) :
    scanLoop (c :: rest) st = scanLoop rest st' := by
  rw [scanLoop_cons, h]

theorem scanLoop_stop {st : ScanState} {c : Char}
    (h : scanStep st c = .stop) (rest : List Char) :
    scanLoop (c :: rest) st = [] := by
  rw [scanLoop_cons, h]

theorem scanLoop_emits {st : ScanState} {c : Char} {cand : List Char} {st' : ScanState}
    (h : scanStep st c = .emit cand st') (rest : List Char) :
    scanLoop (c :: rest) st = cand :: scanLoop rest st' := by
  rw [scanLoop_cons, h]


theorem strChars_consume {s : List Char} (hs : StrChars s) :
    ∀ (rest b : List Char) (d : Nat), d ≠ 0 →
      scanLoop (s ++ rest) ⟨b, d, true, false⟩ = scanLoop rest ⟨b ++ s, d, true, false⟩ := by
  induction hs with
  | nil => intro rest b d hd; simp
  | plain c s hc1 hc2 _ ih =>
      intro rest b d hd
      rw [List.cons_append]
      have h1 : scanStep ⟨b, d, true, false⟩ c = .cont ⟨b ++ [c], d, true, false⟩ := by
        simp [scanStep, hd, hc1, hc2]
      rw [scanLoop_cont h1, ih rest (b ++ [c]) d hd]
      simp
  | esc c s _ ih =>
      intro rest b d hd
      rw [List.cons_append, List.cons_append]
      have h1 : scanStep ⟨b, d, true, false⟩ '\\' = .cont ⟨b ++ ['\\'], d, true, true⟩ := by
        simp [scanStep, hd]
      have h2 : scanStep ⟨b ++ ['\\'], d, true, true⟩ c
          = .cont ⟨(b ++ ['\\']) ++ [c], d, true, false⟩ := by
        simp [scanStep, hd]
      rw [scanLoop_cont h1, scanLoop_cont h2, ih rest ((b ++ ['\\']) ++ [c]) d hd]
      simp

theorem balanced_consume {s : List Char} (hb : BalancedInner s) :
    ∀ (rest b : List Char) (d : Nat), d ≠ 0 →
      scanLoop (s ++ rest) ⟨b, d, false, false⟩ = scanLoop rest ⟨b ++ s, d, false, false⟩ := by
  induction hb with
  | nil => intro rest b d hd; simp
  | raw c s hc1 hc2 hc3 _ ih =>
      intro rest b d hd
      rw [List.cons_append]
      have h1 : scanStep ⟨b, d, false, false⟩ c = .cont ⟨b ++ [c], d, false, false⟩ := by
        simp [scanStep, hd, hc1, hc2, hc3]
      rw [scanLoop_cont h1, ih rest (b ++ [c]) d hd]
      simp
  | str s cs hsc _ ih =>
      intro rest b d hd
      simp only [List.cons_append, List.append_assoc]
      have h1 : scanStep ⟨b, d, false, false⟩ '"' = .cont ⟨b ++ ['"'], d, true, false⟩ := by
        simp [scanStep, hd]
      rw [scanLoop_cont h1]
      rw [strChars_consume hsc ('"' :: (cs ++ rest)) (b ++ ['"']) d hd]
      have h2 : scanStep ⟨(b ++ ['"']) ++ s, d, true, false⟩ '"'
          = .cont ⟨((b ++ ['"']) ++ s) ++ ['"'], d, false, false⟩ := by
        simp [scanStep, hd]
      rw [scanLoop_cont h2, ih rest (((b ++ ['"']) ++ s) ++ ['"']) d hd]
      simp
  | obj inner cs _ _ ih1 ih2 =>
      intro rest b d hd
      simp only [List.cons_append, List.append_assoc]
      have h1 : scanStep ⟨b, d, false, false⟩ '\x7b'
          = .cont ⟨b ++ ['\x7b'], d + 1, false, false⟩ := by
        simp [scanStep, hd]
      rw [scanLoop_cont h1]
      rw [ih1 ('\x7d' :: (cs ++ rest)) (b ++ ['\x7b']) (d + 1) (by omega)]
      have hne : ¬(d + 1 = 1) := by omega
      have h2 : scanStep ⟨(b ++ ['\x7b']) ++ inner, d + 1, false, false⟩ '\x7d'
          = .cont ⟨((b ++ ['\x7b']) ++ inner) ++ ['\x7d'], (d + 1) - 1, false, false⟩ := by
        simp [scanStep, hd, hne]
      rw [scanLoop_cont h2]
      have hd1 : d + 1 - 1 = d := by omega
      rw [hd1, ih2 rest (((b ++ ['\x7b']) ++ inner) ++ ['\x7d']) d hd]
      simp

theorem idle_skip (junk : List Char) (hj : ∀ c ∈ junk, c ≠ '\x7b' ∧ c ≠ ']')
    (b : List Char) (iS eN : Bool) (rest : List Char) :
    scanLoop (junk ++ rest) ⟨b, 0, iS, eN⟩ = scanLoop rest ⟨b, 0, iS, eN⟩ := by
  induction junk with
  | nil => simp
  | cons c cs ih =>
      rw [List.cons_append]
      have h1 : scanStep ⟨b, 0, iS, eN⟩ c = .cont ⟨b, 0, iS, eN⟩ := by
        simp [scanStep, (hj c (by simp)).1, (hj c (by simp)).2]
      rw [scanLoop_cont h1]
      exact ih (fun x hx => hj x (by simp [hx]))

theorem object_emit (inner : List Char) (hb : BalancedInner inner)
    (b : List Char) (iS eN : Bool) (rest : List Char) :
    scanLoop (objText inner ++ rest) ⟨b, 0, iS, eN⟩
      = objText inner :: scanLoop rest ⟨[], 0, false, false⟩ := by
  simp only [objText, List.cons_append, List.append_assoc, List.singleton_append,
    List.nil_append]
  have h1 : scanStep ⟨b, 0, iS, eN⟩ '\x7b' = .cont ⟨['\x7b'], 1, false, false⟩ := by
    simp [scanStep]
  rw [scanLoop_cont h1]
  rw [balanced_consume hb ('\x7d' :: rest) ['\x7b'] 1 (by omega)]
  have h2 : scanStep ⟨['\x7b'] ++ inner, 1, false, false⟩ '\x7d'
      = .emit ((['\x7b'] ++ inner) ++ ['\x7d']) ⟨[], 0, false, false⟩ := by
    simp [scanStep]
  rw [scanLoop_emits h2]
  simp

theorem scan_elems (elems : List (List Char × List Char))
    (hsep : ∀ p ∈ elems, ∀ c ∈ p.1, c ≠ '\x7b' ∧ c ≠ ']')
    (hbal : ∀ p ∈ elems, BalancedInner p.2)
    (post tail : List Char) (hpost : ∀ c ∈ post, c ≠ '\x7b' ∧ c ≠ ']')
    (b : List Char) (iS eN : Bool) :
    scanLoop ((elems.flatMap fun p => p.1 ++ objText p.2) ++ (post ++ ']' :: tail)) ⟨b, 0, iS, eN⟩
      = elems.map fun p => objText p.2 := by
  induction elems generalizing b iS eN with
  | nil =>
      rw [List.flatMap_nil, List.nil_append]
      rw [idle_skip post hpost b iS eN]
      have h1 : scanStep ⟨b, 0, iS, eN⟩ ']' = .stop := by
        simp [scanStep]
      rw [scanLoop_stop h1]
      simp
  | cons p ps ih =>
      rw [List.flatMap_cons, List.append_assoc, List.append_assoc]
      rw [idle_skip p.1 (hsep p (by simp)) b iS eN]
      rw [← List.append_assoc (objText p.2)]
      rw [List.append_assoc (objText p.2)]
      rw [object_emit p.2 (hbal p (by simp)) b iS eN]
      rw [List.map_cons]
      congr 1
      exact ih (fun q hq => hsep q (by simp [hq])) (fun q hq => hbal q (by simp [hq])) [] false false

theorem findArray_append (pre : List Char) (hpre : '[' ∉ pre) (rest : List Char) :
    findArray (pre ++ '[' :: rest) = some rest := by
  induction pre with
  | nil => simp [findArray]
  | cons c cs ih =>
      have hc : c ≠ '[' := by intro h; exact hpre (by simp [h])
      rw [List.cons_append, findArray]
      simp only [hc, if_false]
      exact ih (fun h => hpre (by simp [h]))

/-- C1: for every well-formed input (a character stream containing one
top-level array of objects, with arbitrary junk before the opening
bracket, arbitrary non-brace non-bracket separators between elements and
an ignored tail after the closing bracket), the scanner loop emits
exactly one candidate buffer per top-level array element — the text of
that element — for arbitrary brace-nesting depth, with braces, quotes
and escaped characters embedded inside string values never altering
object boundaries. -/
theorem scanner_emits_one_candidate_per_element
    (pre : List Char) (hpre : '[' ∉ pre)
    (elems : List (List Char × List Char))
    (hsep : ∀ p ∈ elems, ∀ c ∈ p.1, c ≠ '\x7b' ∧ c ≠ ']')
    (hbal : ∀ p ∈ elems, BalancedInner p.2)
    (post tail : List Char) (hpost : ∀ c ∈ post, c ≠ '\x7b' ∧ c ≠ ']') :
    scanner (arrayInput pre elems post tail) = elems.map fun p => objText p.2 := by
  rw [scanner, arrayInput, findArray_append pre hpre]
  exact scan_elems elems hsep hbal post tail hpost [] false false

theorem strChars_ex1 : StrChars ['a', '\x7d'] :=
  StrChars.plain 'a' ['\x7d'] (by decide) (by decide)
    (StrChars.plain '\x7d' [] (by decide) (by decide) StrChars.nil)

theorem balanced_ex1 : BalancedInner ['"', 'a', '\x7d', '"'] :=
  BalancedInner.str ['a', '\x7d'] [] strChars_ex1 BalancedInner.nil

theorem balanced_ex2 : BalancedInner ("bad".toList) :=
  BalancedInner.raw 'b' ['a', 'd'] (by decide) (by decide) (by decide)
    (BalancedInner.raw 'a' ['d'] (by decide) (by decide) (by decide)
      (BalancedInner.raw 'd' [] (by decide) (by decide) (by decide) BalancedInner.nil))

/-- Witness for C1 at a concrete input: one empty object and one object
whose string value contains a closing brace. -/
theorem scanner_emits_one_candidate_per_element_witness :
    ('[' ∉ ['x']) ∧
      scanner (arrayInput ['x'] [([' '], []), ([','], ['"', 'a', '\x7d', '"'])] [' '] ['!'])
        = [objText [], objText ['"', 'a', '\x7d', '"']] := by
  refine ⟨by decide, ?_⟩
  exact scanner_emits_one_candidate_per_element ['x'] (by decide)
    [([' '], []), ([','], ['"', 'a', '\x7d', '"'])]
    (by decide)
    (by intro p hp
        fin_cases hp
        · exact BalancedInner.nil
        · exact balanced_ex1)
    [' '] ['!'] (by decide)

theorem loadLoop_eq_runCands (decode : List Char → Option Msg)
    (instD compD : List (List Char × Msg)) (bs : Nat) (cf : List Row → Bool) :
    ∀ (chars : List Char) (st : ScanState) (bst : BatchSt),
      loadLoop decode instD compD bs cf chars st bst
        = runCands decode instD compD bs cf (scanLoop chars st) bst := by
  intro chars
  induction chars with
  | nil => intro st bst; rfl
  | cons c rest ih =>
      intro st bst
      rw [loadLoop, scanLoop]
      cases h : scanStep st c with
      | stop => rfl
      | cont st' => exact ih st' bst
      | emit cand st' => exact ih st' (handleCand decode instD compD bs cf bst cand)

theorem stream_load_on_array (decode : List Char → Option Msg)
    (instD compD : List (List Char × Msg)) (bs : Nat) (cf : List Row → Bool)
    (pre : List Char) (hpre : '[' ∉ pre)
    (elems : List (List Char × List Char))
    (hsep : ∀ p ∈ elems, ∀ c ∈ p.1, c ≠ '\x7b' ∧ c ≠ ']')
    (hbal : ∀ p ∈ elems, BalancedInner p.2)
    (post tail : List Char) (hpost : ∀ c ∈ post, c ≠ '\x7b' ∧ c ≠ ']') :
    stream_load_messages decode instD compD bs cf (arrayInput pre elems post tail)
      = runCands decode instD compD bs cf (elems.map fun p => objText p.2) ⟨[], [], 0⟩ := by
  rw [stream_load_messages, arrayInput, findArray_append pre hpre]
  show loadLoop decode instD compD bs cf _ ⟨[], 0, false, false⟩ ⟨[], [], 0⟩ = _
  rw [loadLoop_eq_runCands]
  rw [scan_elems elems hsep hbal post tail hpost [] false false]

/-- C5 (amended): a candidate object whose text fails structural decoding
is dropped without any counter recording it, and scanning resumes
cleanly at the next object boundary: for every input stream, a malformed
object anywhere in it never aborts the run and never prevents or
misaligns the emission and enrichment of subsequent well-formed objects
— the whole observable run (committed batches, the message counter and
the error flag) is the same as if the malformed element were absent. -/
theorem malformed_element_leaves_run_unchanged (decode : List Char → Option Msg)
    (instD compD : List (List Char × Msg)) (bs : Nat) (cf : List Row → Bool)
    (pre : List Char) (hpre : '[' ∉ pre)
    (elems1 elems2 : List (List Char × List Char)) (bad : List Char × List Char)
    (hsep : ∀ p ∈ elems1 ++ bad :: elems2, ∀ c ∈ p.1, c ≠ '\x7b' ∧ c ≠ ']')
    (hbal : ∀ p ∈ elems1 ++ bad :: elems2, BalancedInner p.2)
    (hbad : decode (objText bad.2) = none)
    (post tail : List Char) (hpost : ∀ c ∈ post, c ≠ '\x7b' ∧ c ≠ ']') :
    stream_load_messages decode instD compD bs cf
        (arrayInput pre (elems1 ++ bad :: elems2) post tail)
      = stream_load_messages decode instD compD bs cf
        (arrayInput pre (elems1 ++ elems2) post tail) := by
  have hsub : ∀ p : List Char × List Char, p ∈ elems1 ++ elems2 → p ∈ elems1 ++ bad :: elems2 := by
    intro p hp
    rcases List.mem_append.mp hp with h | h
    · exact List.mem_append_left _ h
    · exact List.mem_append_right _ (List.mem_cons_of_mem _ h)
  rw [stream_load_on_array decode instD compD bs cf pre hpre _ hsep hbal post tail hpost]
  rw [stream_load_on_array decode instD compD bs cf pre hpre _
    (fun p hp => hsep p (hsub p hp)) (fun p hp => hbal p (hsub p hp)) post tail hpost]
  have hskip : ∀ bst, handleCand decode instD compD bs cf bst (objText bad.2) = bst := by
    intro bst
    simp [handleCand, hbad]
  simp only [runCands, List.map_append, List.map_cons, List.foldl_append, List.foldl_cons, hskip]

/-- Witness for C5 at a concrete input: an undecodable first element
followed by a well-formed one. -/
theorem malformed_element_leaves_run_unchanged_witness :
    decodeW (objText ("bad".toList)) = none ∧
      stream_load_messages decodeW [] [] 5000 (fun _ => false)
          (arrayInput [] [([], "bad".toList), ([','], ['"', 'a', '\x7d', '"'])] [] [])
        = stream_load_messages decodeW [] [] 5000 (fun _ => false)
          (arrayInput [] [([','], ['"', 'a', '\x7d', '"'])] [] []) := by
  refine ⟨by rfl, ?_⟩
  exact malformed_element_leaves_run_unchanged decodeW [] [] 5000 (fun _ => false)
    [] (by decide) [] [([','], ['"', 'a', '\x7d', '"'])] ([], "bad".toList)
    (by decide)
    (by intro p hp
        fin_cases hp
        · exact balanced_ex2
        · exact balanced_ex1)
    (by rfl) [] [] (by decide)

/-- C5 counterexample, against the dropped candidate being counted: the
source counts only successfully decoded messages (total_messages) and
keeps no counter of malformed candidates, so the full observable outcome
of a run containing a malformed object equals that of the run without
it, and the reported total of the run with one malformed and one valid
object is 1 — nothing records the drop. -/
theorem malformed_not_counted_counterexample :
    stream_load_messages decodeW [] [] 5000 (fun _ => false)
        ("[\x7bbad\x7d,\x7b\"a\x7d\"\x7d]".toList)
      = stream_load_messages decodeW [] [] 5000 (fun _ => false)
        ("[\x7b\"a\x7d\"\x7d]".toList)
    ∧ (stream_load_messages decodeW [] [] 5000 (fun _ => false)
        ("[\x7bbad\x7d,\x7b\"a\x7d\"\x7d]".toList)).2.1 = 1 := by
  constructor
  · rfl
  · rfl

/-- C7: with batch size 2 and an input of 5 decodable records, exactly 3
batch commits occur with sizes 2, 2 and 1 in that order (the last being
the flush of the remaining partial buffer at stream exhaustion), and the
insertion order of rows within and across batches equals the input
order. -/
theorem batch_commits_two_two_one (decode : List Char → Option Msg)
    (instD compD : List (List Char × Msg))
    (pre : List Char) (hpre : '[' ∉ pre)
    (j1 j2 j3 j4 j5 i1 i2 i3 i4 i5 : List Char)
    (hsep : ∀ p ∈ [(j1, i1), (j2, i2), (j3, i3), (j4, i4), (j5, i5)],
      ∀ c ∈ p.1, c ≠ '\x7b' ∧ c ≠ ']')
    (hbal : ∀ p ∈ [(j1, i1), (j2, i2), (j3, i3), (j4, i4), (j5, i5)], BalancedInner p.2)
    (m1 m2 m3 m4 m5 : Msg)
    (h1 : decode (objText i1) = some m1) (h2 : decode (objText i2) = some m2)
    (h3 : decode (objText i3) = some m3) (h4 : decode (objText i4) = some m4)
    (h5 : decode (objText i5) = some m5)
    (post tail : List Char) (hpost : ∀ c ∈ post, c ≠ '\x7b' ∧ c ≠ ']') :
    stream_load_messages decode instD compD 2 (fun _ => false)
        (arrayInput pre [(j1, i1), (j2, i2), (j3, i3), (j4, i4), (j5, i5)] post tail)
      = ([[makeRow instD compD m1, makeRow instD compD m2],
          [makeRow instD compD m3, makeRow instD compD m4],
          [makeRow instD compD m5]], 5, false) := by
  rw [stream_load_on_array decode instD compD 2 (fun _ => false) pre hpre _ hsep hbal post tail hpost]
  simp [runCands, handleCand, finishRun, h1, h2, h3, h4, h5]

/-- Witness for C7 at a concrete input of five empty objects. -/
theorem batch_commits_two_two_one_witness :
    decodeW (objText []) = some [] ∧
      stream_load_messages decodeW [] [] 2 (fun _ => false)
          (arrayInput [] [([], []), ([','], []), ([','], []), ([','], []), ([','], [])] [] [])
        = ([[makeRow [] [] [], makeRow [] [] []],
            [makeRow [] [] [], makeRow [] [] []],
            [makeRow [] [] []]], 5, false) := by
  refine ⟨by rfl, ?_⟩
  exact batch_commits_two_two_one decodeW [] [] [] (by decide)
    [] [','] [','] [','] [','] [] [] [] [] []
    (by decide)
    (by intro p hp; fin_cases hp <;> exact BalancedInner.nil)
    [] [] [] [] []
    (by rfl) (by rfl) (by rfl) (by rfl) (by rfl)
    [] [] (by decide)

/-- C8: the claim says a rejected batch write aborts the run, but in the
source the mid-loop executemany and commit sit inside the same
try/except whose bare `except Exception: pass` guards json decoding, so
the store rejecting a batch write is silently swallowed: the failed
batch is retained in the buffer and the run continues scanning,
enriching and committing.  Concretely, with batch size 1 and two
records, the store rejecting the first batch write ([row1]) still leads
to a later successful commit of [row1, row2], a reported total of 2 and
no error flag. -/
theorem commit_failure_swallowed_continues :
    (stream_load_messages decodeAll [] [] 1 (fun b => b.length == 1)
        ("[\x7ba\x7d,\x7bb\x7d]".toList)).2 = (2, false)
    ∧ ((stream_load_messages decodeAll [] [] 1 (fun b => b.length == 1)
        ("[\x7ba\x7d,\x7bb\x7d]".toList)).1).map List.length = [2] := by
  constructor
  · rfl
  · rfl

/-- C6: timestamp decoding treats a numeric epoch value strictly above
1e12 as milliseconds and any other numeric epoch as seconds, so the
inputs 1700000000 and 1700000000000, which denote the same instant,
decode to the same instant and hence to the same derived date and the
same derived hour, under any fixed timezone offset. -/
theorem epoch_unit_disambiguation :
    parse_timestamp (.num 1700000000) = parse_timestamp (.num 1700000000000)
    ∧ parse_timestamp (.num 1700000000000) = some 1700000000000
    ∧ ∀ tz : Int,
        (parse_timestamp (.num 1700000000)).map (derivedDate tz)
            = (parse_timestamp (.num 1700000000000)).map (derivedDate tz)
          ∧ (parse_timestamp (.num 1700000000)).map (derivedHour tz)
            = (parse_timestamp (.num 1700000000000)).map (derivedHour tz) := by
  refine ⟨by rfl, by rfl, ?_⟩
  intro tz
  exact ⟨rfl, rfl⟩

theorem pyStr_null_eval : pyStr JVal.null = "None".toList := by
  show pyRepr JVal.null = "None".toList
  rw [pyRepr]

theorem pyStr_false_eval : pyStr (JVal.bool false) = "False".toList := by
  show pyRepr (JVal.bool false) = "False".toList
  rw [pyRepr]

theorem pyStr_zero_eval : pyStr (JVal.num 0) = "0".toList := by
  show pyRepr (JVal.num 0) = "0".toList
  rw [pyRepr]
  rfl

theorem pyStr_emptyObj_eval : pyStr (JVal.obj []) = ['\x7b', '\x7d'] := by
  show pyRepr (JVal.obj []) = ['\x7b', '\x7d']
  rw [pyRepr]
  rfl

theorem pyStr_emptyArr_eval : pyStr (JVal.arr []) = ['[', ']'] := by
  show pyRepr (JVal.arr []) = ['[', ']']
  rw [pyRepr]
  rfl

/-- C4: for every body value, the sentiment classifier counts keyword
hits against the fixed positive list and the fixed negative list across
the whole lowered body; the label with the strictly greater count is
returned, and equal counts (including zero against zero, and the empty
or falsy body) return Neutral. -/
theorem detect_sentiment_count_based (body : JVal) :
    detect_sentiment body =
      (if countHits negative_words (lowerList (pyStr body))
            < countHits positive_words (lowerList (pyStr body)) then "Positive"
       else if countHits positive_words (lowerList (pyStr body))
            < countHits negative_words (lowerList (pyStr body)) then "Negative"
       else "Neutral") := by
  cases body with
  | null => rw [pyStr_null_eval]; rfl
  | bool b =>
      cases b
      · rw [pyStr_false_eval]; rfl
      · have ht : truthy (.bool true) = true := by simp [truthy]
        simp [detect_sentiment, ht]
  | num n =>
      by_cases hn : n = 0
      · subst hn; rw [pyStr_zero_eval]; rfl
      · have ht : truthy (.num n) = true := by simp [truthy, hn]
        simp [detect_sentiment, ht]
  | str s =>
      cases s with
      | nil => rfl
      | cons c cs =>
          have ht : truthy (.str (c :: cs)) = true := by simp [truthy]
          simp [detect_sentiment, ht]
  | arr es =>
      cases es with
      | nil => rw [pyStr_emptyArr_eval]; rfl
      | cons e es' =>
          have ht : truthy (.arr (e :: es')) = true := by simp [truthy]
          simp [detect_sentiment, ht]
  | obj fs =>
      cases fs with
      | nil => rw [pyStr_emptyObj_eval]; rfl
      | cons f fs' =>
          have ht : truthy (.obj (f :: fs')) = true := by simp [truthy]
          simp [detect_sentiment, ht]

theorem firstSome_append {α β : Type} (f : α → Option β) (l1 l2 : List α) :
    firstSome f (l1 ++ l2) =
      (match firstSome f l1 with
       | some v => some v
       | none => firstSome f l2) := by
  induction l1 with
  | nil => simp [firstSome]
  | cons x xs ih =>
      rw [List.cons_append, firstSome, firstSome]
      cases h : f x with
      | some v => rfl
      | none => exact ih

theorem foldl_override_eq_reverse {α : Type} (f : α → Option JVal)
    (l : List α) (init : Option JVal) :
    l.foldl (fun acc x => match f x with | some v => some v | none => acc) init
      = (match firstSome f l.reverse with
         | some v => some v
         | none => init) := by
  induction l generalizing init with
  | nil => simp [firstSome]
  | cons x xs ih =>
      rw [List.foldl_cons, ih, List.reverse_cons, firstSome_append]
      cases h : firstSome f xs.reverse with
      | some v => rfl
      | none =>
          cases hx : f x with
          | some v => simp [firstSome, hx]
          | none => simp [firstSome, hx]

theorem parentsScan_eq_lastParentHit (msg : Msg) :
    parentsScan msg = lastParentHit msg := by
  rw [parentsScan, lastParentHit]
  rw [foldl_override_eq_reverse (parentProbe msg) parentList none]
  cases h : firstSome (parentProbe msg) parentList.reverse <;> simp

/-- C2 (amended): the implemented phone lookup tries the flat top-level
fields in priority order with first-non-empty-wins, then the nested key
sub-object fields with first-non-empty-wins, but among the nested parent
objects the loop never breaks, so each parent carrying any probed field
(present even with an empty value) overwrites the previous one and the
LAST such parent wins. -/
theorem phone_lookup_order_amended (msg : Msg) :
    extract_customer_phone msg = amendedPhoneLookup msg := by
  have hp : phoneCandidate msg
      = orOpt (firstTruthy msg flatFields) (orOpt (keyStage msg) (lastParentHit msg)) := by
    rw [phoneCandidate, parentsScan_eq_lastParentHit]
    cases h1 : firstTruthy msg flatFields <;> cases h2 : keyStage msg <;> simp [orOpt]
  rw [extract_customer_phone, amendedPhoneLookup, hp]

/-- A message carrying a phone-bearing field in two different nested
parent objects. -/
def msgC2 : Msg :=
  [("message", .obj [("jid", .str ("11111111111".toList))]),
   ("chat", .obj [("phone", .str ("22222222222".toList))])]

/-- C2 counterexample: on a message whose first parent location
(message.jid) and a later parent location (chat.phone) both yield
non-empty values, the code returns the later one, while the claimed
first-location-wins lookup (specPhoneLookup, worded from the spec)
returns the first. -/
theorem phone_parent_override_counterexample :
    extract_customer_phone msgC2 = some ("22222222222".toList)
    ∧ specPhoneLookup msgC2 = some ("11111111111".toList) := by
  constructor
  · rfl
  · rfl

theorem extract_phone_success {msg : Msg} {s : List Char}
    (h : extract_customer_phone msg = some s) :
    ∃ raw, ¬raw.isEmpty ∧ phoneCandidate msg = some (.str raw) ∧ cleanResult raw = some s := by
  rw [extract_customer_phone] at h
  cases hp : phoneCandidate msg with
  | none => rw [hp] at h; cases h
  | some v =>
      rw [hp] at h
      cases v with
      | str s0 =>
          have h' : (if s0.isEmpty = true then none else cleanResult s0) = some s := h
          by_cases he : s0.isEmpty
          · rw [if_pos he] at h'; cases h'
          · rw [if_neg he] at h'
            exact ⟨s0, he, rfl, h'⟩
      | null => cases h
      | bool b => cases h
      | num n => cases h
      | arr es => cases h
      | obj fs => cases h

theorem cleanResult_shape {raw s : List Char} (h : cleanResult raw = some s) :
    (∀ c ∈ s, c.isDigit = true ∨ c = '+') ∧ 10 ≤ s.length := by
  simp only [cleanResult] at h
  by_cases hlen : 10 ≤ ((stripAtSuffix raw).filter keepChar).length
  · rw [if_pos hlen] at h
    obtain rfl := Option.some.inj h
    refine ⟨?_, hlen⟩
    intro c hc
    have hk := List.of_mem_filter hc
    simp only [keepChar, Bool.or_eq_true, beq_iff_eq] at hk
    exact hk
  · rw [if_neg hlen] at h
    cases h

/-- C3 (amended): a non-null normalized customer phone consists only of
digits and plus signs (a plus may survive at any position, not only a
single leading one) and is at least ten characters long; a cleaned
result shorter than ten characters yields null rather than an error. -/
theorem phone_shape_amended (msg : Msg) (s : List Char)
    (h : extract_customer_phone msg = some s) :
    (∀ c ∈ s, c.isDigit = true ∨ c = '+') ∧ 10 ≤ s.length := by
  obtain ⟨raw, _, _, hraw⟩ := extract_phone_success h
  exact cleanResult_shape hraw

/-- Witness for C3 (amended) at a concrete message with a routing
suffix. -/
theorem phone_shape_amended_witness :
    extract_customer_phone [("remoteJid", .str ("12345678901@s.whatsapp.net".toList))]
        = some ("12345678901".toList)
    ∧ ((∀ c ∈ ("12345678901".toList), c.isDigit = true ∨ c = '+')
        ∧ 10 ≤ ("12345678901".toList).length) := by
  refine ⟨by rfl, ?_⟩
  exact phone_shape_amended [("remoteJid", .str ("12345678901@s.whatsapp.net".toList))]
    ("12345678901".toList) (by rfl)

/-- A message whose phone field carries an interior plus sign. -/
def msgC3 : Msg := [("remoteJid", .str ("12345+67890".toList))]

/-- C3 counterexample: the cleaning keeps every plus sign, not only a
single leading one, so the pipeline returns a normalized phone with an
interior plus, which violates the claimed shape (specPhoneShape, worded
from the spec). -/
theorem phone_plus_shape_counterexample :
    extract_customer_phone msgC3 = some ("12345+67890".toList)
    ∧ specPhoneShape ("12345+67890".toList) = false := by
  constructor
  · rfl
  · rfl

theorem stripAtSuffix_no_at {s : List Char} (h : ∀ c ∈ s, c ≠ '@') :
    stripAtSuffix s = s := by
  induction s with
  | nil => rfl
  | cons c cs ih =>
      rw [stripAtSuffix, if_neg (h c (by simp))]
      rw [ih (fun x hx => h x (by simp [hx]))]

/-- C9: phone normalization is idempotent: any value the extraction
returns is a fixed point of the cleaning step, and feeding it back
through the extraction (as a flat phone field) returns it unchanged. -/
theorem phone_normalization_idempotent (msg : Msg) (t : List Char)
    (h : extract_customer_phone msg = some t) :
    cleanResult t = some t
    ∧ extract_customer_phone [("remoteJid", .str t)] = some t := by
  have hsh := phone_shape_amended msg t h
  have hstrip : stripAtSuffix t = t := by
    apply stripAtSuffix_no_at
    intro c hc
    rcases hsh.1 c hc with hd | hp
    · intro he; rw [he] at hd; exact absurd hd (by decide)
    · intro he; rw [he] at hp; cases hp
  have hfilter : t.filter keepChar = t := by
    apply List.filter_eq_self.mpr
    intro c hc
    rcases hsh.1 c hc with hd | hp
    · simp [keepChar, hd]
    · simp [keepChar, hp]
  have hclean : cleanResult t = some t := by
    simp only [cleanResult, hstrip, hfilter]
    rw [if_pos hsh.2]
  refine ⟨hclean, ?_⟩
  have hne : ¬t.isEmpty := by
    intro he
    rw [List.isEmpty_iff] at he
    subst he
    have := hsh.2
    simp at this
  simp [extract_customer_phone, phoneCandidate, firstTruthy, flatFields, lookupField,
    truthy, hne, hclean]

/-- Witness for C9 at a concrete message with a routing suffix. -/
theorem phone_normalization_idempotent_witness :
    extract_customer_phone [("remoteJid", .str ("0123456789@c.us".toList))]
        = some ("0123456789".toList)
    ∧ cleanResult ("0123456789".toList) = some ("0123456789".toList)
    ∧ extract_customer_phone [("remoteJid", .str ("0123456789".toList))]
        = some ("0123456789".toList) := by
  refine ⟨by rfl, ?_⟩
  exact phone_normalization_idempotent [("remoteJid", .str ("0123456789@c.us".toList))]
    ("0123456789".toList) (by rfl)

/-- A message carrying only a broadcast foreign key whose ObjectId tag is
the empty string. -/
def msgC10 : Msg := [("broadCastId", .obj [("$oid", .str [])])]

/-- C10 counterexample: the broadcast foreign-key extraction yields a
non-null identifier (the empty string unwrapped from the $oid tag), yet
the persisted is_broadcast flag is 0, because the code tests Python
truthiness of the extracted value, not non-nullness. -/
theorem broadcast_empty_oid_counterexample :
    extract_foreign_key msgC10 ["broadCastId", "broadcast_id", "broadcast"] = some (.str [])
    ∧ (makeRow [] [] msgC10).is_broadcast = 0 := by
  constructor
  · rfl
  · rfl

/-- C10 (amended): the persisted is_broadcast flag is 1 exactly when the
isBroadCast field is truthy or the broadcast foreign-key extraction
('broadCastId', 'broadcast_id', 'broadcast') yields a truthy (non-empty,
non-null) value; in particular, a record carrying only a truthy
broadcast id and no isBroadCast flag is still marked as broadcast. -/
theorem is_broadcast_truthy_amended (instD compD : List (List Char × Msg)) (msg : Msg) :
    (makeRow instD compD msg).is_broadcast = 1
      ↔ (truthy (getD msg "isBroadCast" (.bool false)) = true
          ∨ ∃ v, extract_foreign_key msg ["broadCastId", "broadcast_id", "broadcast"] = some v
              ∧ truthy v = true) := by
  simp only [makeRow]
  split
  case isTrue hcond =>
      simp only [Bool.or_eq_true] at hcond
      constructor
      · intro _
        rcases hcond with h | h
        · exact Or.inl h
        · right
          cases hefk : extract_foreign_key msg ["broadCastId", "broadcast_id", "broadcast"] with
          | none => rw [hefk] at h; cases h
          | some v => rw [hefk] at h; exact ⟨v, rfl, h⟩
      · intro _; rfl
  case isFalse hcond =>
      constructor
      · intro h01; exact absurd h01 (by decide)
      · intro hdisj
        exfalso
        apply hcond
        rcases hdisj with h | ⟨v, hv, htv⟩
        · simp [h]
        · rw [hv]
          simp [htv]
